import Mathlib

/-!
Verification of the retrieval and ranking pipeline of a RAG chat service.

The TypeScript source is embedded shallowly: pure pipeline functions become Lean
functions over `List Char` / `String` / `ℚ`; the external collaborators
(embedding service, vector store, lexical store, language model) are modelled as
explicit parameters holding their results, as the spec treats them as black
boxes.  JavaScript regular expressions used by the pipeline are compiled by hand
into either literal-substring alternations or a small regex evaluator, following
their exact semantics on the pattern shapes that occur in the source.
-/

namespace RAGPipeline

/- The rational-arithmetic primitives are `[irreducible]` in Batteries, which
stops `decide` from evaluating concrete similarity scores; they are restored to
their default reducibility for this development. -/
attribute [local semireducible] Rat.mul Rat.inv Rat.add Rat.sub

/-! ### Character classes and low-level string helpers -/

/-- JavaScript `\w`: ASCII letters, digits and underscore. -/
def isWordChar (c : Char) : Bool := c.isAlpha || c.isDigit || c == '_'

/-- JavaScript `\s`, restricted to the ASCII whitespace characters that occur here. -/
def isWsChar (c : Char) : Bool :=
  c == ' ' || c == '\t' || c == '\n' || c == '\r' || c == '\x0b' || c == '\x0c'

/-- ASCII lower-casing, modelling `String.prototype.toLowerCase` on ASCII text. -/
def lowerStr (s : String) : String := String.mk (s.data.map Char.toLower)

/-- `pat` occurs at the start of `hay`. -/
def startsWithL : List Char → List Char → Bool
  | [], _ => true
  | _ :: _, [] => false
  | a :: as, b :: bs => a == b && startsWithL as bs

/-- `pat` occurs somewhere in `hay` (JavaScript `String.prototype.includes`). -/
def containsL (pat : List Char) : List Char → Bool
  | [] => startsWithL pat []
  | c :: t => startsWithL pat (c :: t) || containsL pat t

/-- `hay.includes(pat)`. -/
def containsStr (hay pat : String) : Bool := containsL pat.data hay.data

/-- Does `q` contain any of the literal alternatives?  This is the semantics of a
JavaScript regex test `/p1|p2|.../.test(q)` when every alternative is a literal. -/
def testAny (q : String) (pats : List String) : Bool := pats.any (fun p => containsStr q p)

/-! ### Question classification (`detectQuestionType`) -/

inductive QuestionType where
  | definition | comparison | explanation | location | listing | quantity
  | procedure | cause_effect | property | «example» | time | general
deriving DecidableEq

/-- `/where|position|location|located|place|found in|which (page|section|chapter|part)/` -/
def locationTest (q : String) : Bool :=
  testAny q ["where", "position", "location", "located", "place", "found in",
             "which page", "which section", "which chapter", "which part"]

/-- `/list|what are the|types of|kinds of|categories|enumerate|name all|give all/` -/
def listingTest (q : String) : Bool :=
  testAny q ["list", "what are the", "types of", "kinds of", "categories",
             "enumerate", "name all", "give all"]

/-- `/how many|how much|count|number of|total|percentage|ratio/` -/
def quantityTest (q : String) : Bool :=
  testAny q ["how many", "how much", "count", "number of", "total", "percentage", "ratio"]

/-- `/how to|steps|procedure|process|method|way to|instructions/` -/
def procedureTest (q : String) : Bool :=
  testAny q ["how to", "steps", "procedure", "process", "method", "way to", "instructions"]

/-- `/why|cause|effect|result|consequence|reason|because|leads to/` -/
def causeEffectTest (q : String) : Bool :=
  testAny q ["why", "cause", "effect", "result", "consequence", "reason", "because", "leads to"]

/-- `/properties|characteristics|features|attributes|qualities|aspects/` -/
def propertyTest (q : String) : Bool :=
  testAny q ["properties", "characteristics", "features", "attributes", "qualities", "aspects"]

/-- `/example|instance|such as|like what|give me|show me/` -/
def exampleTest (q : String) : Bool :=
  testAny q ["example", "instance", "such as", "like what", "give me", "show me"]

/-- `/when|time|date|period|duration|how long|before|after/` -/
def timeTest (q : String) : Bool :=
  testAny q ["when", "time", "date", "period", "duration", "how long", "before", "after"]

/-- `/what is|define|meaning|definition|describe|explain what/` -/
def definitionTest (q : String) : Bool :=
  testAny q ["what is", "define", "meaning", "definition", "describe", "explain what"]

/-- `/difference|compare|vs\.?|versus|distinguish|contrast|similar|between/`;
`vs\.?` matches anywhere some occurrence of `vs` does, so it is the literal `vs`. -/
def comparisonTest (q : String) : Bool :=
  testAny q ["difference", "compare", "vs", "versus", "distinguish", "contrast",
             "similar", "between"]

/-- `/how does|how do|explain|describe how|works/` -/
def explanationTest (q : String) : Bool :=
  testAny q ["how does", "how do", "explain", "describe how", "works"]

/-- `detectQuestionType` from the source: lower-case the query, then an ordered
cascade of pattern tests with first-match-wins and a `general` fallback. -/
def detectQuestionType (query : String) : QuestionType :=
  let q := lowerStr query
  if locationTest q then .location
  else if listingTest q then .listing
  else if quantityTest q then .quantity
  else if procedureTest q then .procedure
  else if causeEffectTest q then .cause_effect
  else if propertyTest q then .property
  else if exampleTest q then .«example»
  else if timeTest q then .time
  else if definitionTest q then .definition
  else if comparisonTest q then .comparison
  else if explanationTest q then .explanation
  else .general

/-- The category tests in the precedence order stated by the spec. -/
def categoryChecks : List ((String → Bool) × QuestionType) :=
  [(locationTest, .location), (listingTest, .listing), (quantityTest, .quantity),
   (procedureTest, .procedure), (causeEffectTest, .cause_effect), (propertyTest, .property),
   (exampleTest, .«example»), (timeTest, .time), (definitionTest, .definition),
   (comparisonTest, .comparison), (explanationTest, .explanation)]

/-- Spec-side classifier: an ordered list of (predicate, category) pairs evaluated
in sequence with first-match-wins semantics and a `general` fallback. -/
def firstMatchClassify : List ((String → Bool) × QuestionType) → String → QuestionType
  | [], _ => .general
  | pc :: rest, q => if pc.1 q then pc.2 else firstMatchClassify rest q

/-! ### Term extraction (`extractSearchTerms`, `extractKeywords`) -/

/-- Maximal runs of `\w` characters, in order of occurrence. -/
def wordRunsAux : List Char → List Char → List (List Char)
  | [], acc => if acc.isEmpty then [] else [acc.reverse]
  | c :: cs, acc =>
    if isWordChar c then wordRunsAux cs (c :: acc)
    else if acc.isEmpty then wordRunsAux cs []
    else acc.reverse :: wordRunsAux cs []

def wordRuns (cs : List Char) : List (List Char) := wordRunsAux cs []

/-- A maximal word run is matched by `\b[A-Z]{2,}[A-Z0-9]*\b` exactly when its
first two characters are upper-case letters and the rest are upper-case letters
or digits; `\b` pins a match to whole maximal runs. -/
def isAcronymRun (r : List Char) : Bool :=
  match r with
  | c₀ :: c₁ :: rest => c₀.isUpper && c₁.isUpper && rest.all (fun c => c.isUpper || c.isDigit)
  | _ => false

/-- `query.match(/\b[A-Z]{2,}[A-Z0-9]*\b/g) || []`. -/
def acronymsOf (query : String) : List String :=
  ((wordRuns query.data).filter isAcronymRun).map String.mk

/-- `query.match(/"([^"]+)"/g)?.map(s => s.replace(/"/g, '')) || []`: scan for a
quote, pair it with the next quote when at least one character lies between,
emit the body, and continue after the closing quote. -/
def quotedAux : Nat → List Char → List String
  | 0, _ => []
  | _, [] => []
  | fuel + 1, c :: cs =>
    if c == '"' then
      let body := cs.takeWhile (fun d => d != '"')
      match cs.drop body.length with
      | [] => quotedAux fuel cs
      | _ :: rest => if body.isEmpty then quotedAux fuel cs
                     else String.mk body :: quotedAux fuel rest
    else quotedAux fuel cs

def quotedOf (query : String) : List String := quotedAux (query.data.length + 1) query.data

/-- A word run of shape `[A-Z][a-z]+` (one capital, at least one lower-case, nothing else). -/
def isCapWordRun (r : List Char) : Bool :=
  match r with
  | c :: rest => c.isUpper && !rest.isEmpty && rest.all Char.isLower
  | [] => false

/-- Greedy extension step of `\b[A-Z][a-z]+(?:\s+[A-Z][a-z]+)*\b`: keep absorbing
`whitespace⁺ capitalizedWord` groups while the next maximal run is a complete
`[A-Z][a-z]+` run; if not, backtracking ends the match at the previous word. -/
def capExtend : Nat → List Char → List Char → (List Char × List Char)
  | 0, acc, rest => (acc, rest)
  | fuel + 1, acc, rest =>
    let ws := rest.takeWhile isWsChar
    if ws.isEmpty then (acc, rest)
    else
      let rest2 := rest.drop ws.length
      let run2 := rest2.takeWhile isWordChar
      if isCapWordRun run2 then
        capExtend fuel (acc ++ ws ++ run2) (rest2.drop run2.length)
      else (acc, rest)

/-- Global scan for `/\b[A-Z][a-z]+(?:\s+[A-Z][a-z]+)*\b/g`: a match can only
start where a word boundary precedes an upper-case letter, its first word must be
a complete `[A-Z][a-z]+` run, and matching resumes after each match. -/
def capScan : Nat → Bool → List Char → List String
  | 0, _, _ => []
  | _, _, [] => []
  | fuel + 1, prevWord, c :: cs =>
    if !prevWord && c.isUpper then
      let run := (c :: cs).takeWhile isWordChar
      if isCapWordRun run then
        let ext := capExtend (fuel + 1) run ((c :: cs).drop run.length)
        String.mk ext.1 :: capScan fuel true ext.2
      else capScan fuel (isWordChar c) cs
    else capScan fuel (isWordChar c) cs

def capitalizedOf (query : String) : List String :=
  capScan (query.data.length + 1) false query.data

/-- JavaScript `String.prototype.split(/\s+/)`: tokens between maximal whitespace
runs, with an empty leading token for leading whitespace and an empty trailing
token for trailing whitespace. -/
def splitWsAux : Nat → List Char → List (List Char)
  | 0, _ => []
  | fuel + 1, cs =>
    let tok := cs.takeWhile (fun c => !isWsChar c)
    match cs.drop tok.length with
    | [] => [tok]
    | rest =>
      let rest2 := rest.dropWhile isWsChar
      tok :: (if rest2.isEmpty then [[]] else splitWsAux fuel rest2)

def splitWsJS (s : String) : List String :=
  (splitWsAux (s.data.length + 1) s.data).map String.mk

/-- Deduplication keeping the first occurrence with respect to a boolean match
relation, with explicit fuel so that it reduces by iota; `dedupBy` supplies
enough fuel for any input. -/
def dedupByAux (eqb : α → α → Bool) : Nat → List α → List α
  | 0, _ => []
  | _, [] => []
  | fuel + 1, x :: xs => x :: dedupByAux eqb fuel (xs.filter (fun y => !(eqb y x)))

def dedupBy (eqb : α → α → Bool) (l : List α) : List α := dedupByAux eqb (l.length + 1) l

theorem dedupByAux_congr (eqb : α → α → Bool) :
    ∀ (f₁ : Nat) (l : List α) (f₂ : Nat), l.length < f₁ → l.length < f₂ →
      dedupByAux eqb f₁ l = dedupByAux eqb f₂ l := by
  intro f₁
  induction f₁ with
  | zero => intro l f₂ h₁ _; exact absurd h₁ (Nat.not_lt_zero _)
  | succ g₁ ih =>
    intro l f₂ h₁ h₂
    match l, f₂ with
    | [], g₂ + 1 => rfl
    | x :: xs, g₂ + 1 =>
      simp only [dedupByAux, List.cons.injEq, true_and]
      have hle : (xs.filter (fun y => !(eqb y x))).length ≤ xs.length :=
        List.length_filter_le _ _
      simp only [List.length_cons] at h₁ h₂
      exact ih _ g₂ (by omega) (by omega)

theorem dedupBy_nil (eqb : α → α → Bool) : dedupBy eqb [] = [] := rfl

theorem dedupBy_cons (eqb : α → α → Bool) (x : α) (xs : List α) :
    dedupBy eqb (x :: xs) = x :: dedupBy eqb (xs.filter (fun y => !(eqb y x))) := by
  simp only [dedupBy, List.length_cons, dedupByAux, List.cons.injEq, true_and]
  have hle : (xs.filter (fun y => !(eqb y x))).length ≤ xs.length :=
    List.length_filter_le _ _
  exact dedupByAux_congr eqb _ _ _ (by omega) (by omega)

theorem mem_of_mem_dedupByAux (eqb : α → α → Bool) :
    ∀ (fuel : Nat) (l : List α) (a : α), a ∈ dedupByAux eqb fuel l → a ∈ l := by
  intro fuel
  induction fuel with
  | zero => intro l a ha; simp [dedupByAux] at ha
  | succ g ih =>
    intro l a ha
    match l with
    | [] => simp [dedupByAux] at ha
    | x :: xs =>
      simp only [dedupByAux, List.mem_cons] at ha
      rcases ha with h | h
      · exact h ▸ List.mem_cons_self _ _
      · exact List.mem_cons_of_mem _ (List.mem_of_mem_filter (ih _ a h))

theorem mem_of_mem_dedupBy (eqb : α → α → Bool) {l : List α} {a : α}
    (h : a ∈ dedupBy eqb l) : a ∈ l :=
  mem_of_mem_dedupByAux eqb _ l a h

/-- `[...new Set(l)]`: deduplicate keeping the first occurrence, preserving order. -/
def dedupFirst [BEq α] (l : List α) : List α := dedupBy (fun a b => a == b) l

/-- The stop-word set of `extractSearchTerms`. -/
def stopWords1 : List String :=
  ["what", "is", "the", "a", "an", "of", "in", "to", "for", "and", "or", "how",
   "does", "do", "are", "was", "were", "be", "been", "being", "have", "has",
   "had", "can", "could", "would", "should", "may", "might", "must", "will", "shall"]

/-- The larger stop-word set of `extractKeywords`. -/
def stopWords2 : List String :=
  ["what", "is", "the", "a", "an", "of", "in", "to", "for", "and", "or",
   "how", "does", "do", "are", "was", "were", "be", "been", "being",
   "have", "has", "had", "can", "could", "would", "should", "may",
   "might", "must", "will", "shall", "this", "that", "these", "those",
   "it", "its", "they", "them", "their", "there", "here", "where",
   "when", "why", "which", "who", "whom", "whose", "about", "between",
   "give", "me", "tell", "explain", "describe", "define", "list"]

structure SearchTerms where
  primaryTerms : List String
  contextTerms : List String
  searchHints : List String
deriving DecidableEq

/-- The `switch (questionType)` block of `extractSearchTerms`. -/
def searchHintsFor : QuestionType → List String
  | .definition => ["definition", "meaning", "refers to", "is defined as", "is a"]
  | .comparison => ["difference", "compared to", "unlike", "whereas", "while", "but"]
  | .location => ["located", "found", "position", "placed", "situated"]
  | .listing => ["types", "kinds", "categories", "includes", "consists of", "such as"]
  | .quantity => ["number", "count", "total", "amount", "percentage"]
  | .procedure => ["step", "first", "then", "next", "finally", "process", "method"]
  | .cause_effect => ["because", "causes", "results in", "leads to", "due to", "therefore"]
  | .property => ["property", "characteristic", "feature", "attribute", "has", "contains"]
  | .«example» => ["example", "instance", "such as", "like", "for instance"]
  | .time => ["when", "during", "before", "after", "while", "until"]
  | .explanation => ["works by", "functions", "operates", "mechanism", "through"]
  | .general => []

/-- `extractSearchTerms` from the source: acronyms, quoted phrases and
capitalized sequences become primary terms; remaining non-stop-words longer than
two characters become context terms (capped at 5); hints come from the type. -/
def extractSearchTerms (query : String) (questionType : QuestionType) : SearchTerms :=
  let words := splitWsJS (lowerStr query)
  let primaryRaw := acronymsOf query ++ quotedOf query ++ capitalizedOf query
  let contextRaw := words.filter (fun w =>
    !(stopWords1.contains w) && w.length > 2 && !(primaryRaw.any (fun t => lowerStr t == w)))
  { primaryTerms := dedupFirst primaryRaw
    contextTerms := (dedupFirst contextRaw).take 5
    searchHints := searchHintsFor questionType }

/-- `buildSearchQuery` from the source. -/
def buildSearchQuery (query : String) (questionType : QuestionType) : String :=
  let st := extractSearchTerms query questionType
  let searchParts := st.primaryTerms ++ st.contextTerms.take 3
  if questionType = QuestionType.definition ∧ 0 < st.primaryTerms.length then
    String.intercalate " " st.primaryTerms ++ " definition meaning characteristics"
  else if questionType = QuestionType.comparison ∧ 2 ≤ st.primaryTerms.length then
    st.primaryTerms.getD 0 "" ++ " " ++ st.primaryTerms.getD 1 "" ++ " difference comparison"
  else if questionType = QuestionType.procedure then
    String.intercalate " " searchParts ++ " steps process method how to"
  else if questionType = QuestionType.listing then
    String.intercalate " " searchParts ++ " types kinds list categories"
  else query

/-- `extractKeywords` from the source: lower-case, strip punctuation to spaces,
split, filter stop words and short words, prepend lower-cased acronyms, dedupe. -/
def extractKeywords (query : String) : List String :=
  let cleaned := String.mk ((lowerStr query).data.map
    (fun c => if isWordChar c || isWsChar c then c else ' '))
  let words := (splitWsJS cleaned).filter
    (fun w => w.length > 2 && !(stopWords2.contains w))
  dedupFirst ((acronymsOf query).map lowerStr ++ words)

/-! ### C3: the classifier is an ordered first-match cascade -/

/-- C3: for every query string, the classifier is a pure function of the
lower-cased query that tests the category patterns in the fixed order location,
listing, quantity, procedure, cause_effect, property, example, time, definition,
comparison, explanation, returns the first category whose pattern matches, and
returns `general` when none match (it always returns a value). -/
theorem c3_classifier_first_match :
    (∀ q, detectQuestionType q = firstMatchClassify categoryChecks (lowerStr q)) ∧
    (∀ q₁ q₂, lowerStr q₁ = lowerStr q₂ → detectQuestionType q₁ = detectQuestionType q₂) ∧
    (∀ q, (categoryChecks.all (fun pc => !(pc.1 (lowerStr q)))) = true →
      detectQuestionType q = QuestionType.general) := by
  have h : ∀ q, detectQuestionType q = firstMatchClassify categoryChecks (lowerStr q) := by
    intro q
    simp only [detectQuestionType, categoryChecks, firstMatchClassify]
  refine ⟨h, fun q₁ q₂ hq => ?_, fun q hq => ?_⟩
  · rw [h q₁, h q₂, hq]
  · rw [h q]
    simp only [categoryChecks, List.all_cons, List.all_nil, Bool.and_eq_true,
      Bool.not_eq_true'] at hq
    simp only [firstMatchClassify, categoryChecks]
    simp only [hq, if_false, Bool.false_eq_true]

/-- Witness for C3: the classifier agrees on two spellings with the same
lower-casing, and a pattern-free query falls through to `general`. -/
theorem c3_classifier_witness :
    detectQuestionType "Where is the engine" = detectQuestionType "WHERE IS THE ENGINE" ∧
    detectQuestionType "zzz" = QuestionType.general :=
  ⟨c3_classifier_first_match.2.1 "Where is the engine" "WHERE IS THE ENGINE" (by decide),
   c3_classifier_first_match.2.2 "zzz" (by decide)⟩

/-! ### C1: the `"What is NASA?"` scenario -/

/-- C1 counterexample: the spec's scenario for `"What is NASA?"` fails on the
code.  The capitalized-sequence pattern `\b[A-Z][a-z]+(?:\s+[A-Z][a-z]+)*\b`
also captures the interrogative `What`, so the primary-term list is not exactly
`["NASA"]` and the built search query is not
`"NASA definition meaning characteristics"`. -/
theorem c1_nasa_scenario_counterexample :
    ¬ (detectQuestionType "What is NASA?" = QuestionType.definition ∧
       (extractSearchTerms "What is NASA?"
         (detectQuestionType "What is NASA?")).primaryTerms = ["NASA"] ∧
       buildSearchQuery "What is NASA?" (detectQuestionType "What is NASA?") =
         "NASA definition meaning characteristics") := by
  decide

/-- C1 amended: for the query `"What is NASA?"` the classifier returns
`definition`, the extracted primary-term list is exactly `["NASA", "What"]`
(the capitalized interrogative `What` is also captured), and the built search
query is exactly `"NASA What definition meaning characteristics"`. -/
theorem c1_nasa_scenario_amended :
    detectQuestionType "What is NASA?" = QuestionType.definition ∧
    (extractSearchTerms "What is NASA?"
      (detectQuestionType "What is NASA?")).primaryTerms = ["NASA", "What"] ∧
    buildSearchQuery "What is NASA?" (detectQuestionType "What is NASA?") =
      "NASA What definition meaning characteristics" := by
  decide

/-! ### Document records -/

structure DocumentMetadata where
  document_name : String
  page_number : Int
  chunk_index : Int
deriving DecidableEq

structure MatchedDocument where
  id : Int
  content : String
  metadata : DocumentMetadata
  similarity : ℚ
deriving DecidableEq

/-! ### A small regex evaluator for the rerank content patterns

The rerank bonuses test a handful of JavaScript regexes built from literals,
character classes, `\s`, `\s*`, `\s+`, `\d` and `\d+`.  `matchPre re cs` returns
the possible remainders after matching `re` at the start of `cs`; `reSearch`
asks for a match at some position, which is exactly `RegExp.prototype.test`. -/

inductive RE where
  | lit : List Char → RE
  | oneOf : List Char → RE
  | wsOne : RE
  | wsMany0 : RE
  | wsMany1 : RE
  | digitOne : RE
  | digitMany1 : RE
  | seq : RE → RE → RE
  | alt : RE → RE → RE

/-- Remainders after consuming at least one whitespace character. -/
def wsTails1 : List Char → List (List Char)
  | [] => []
  | c :: rest => if isWsChar c then rest :: wsTails1 rest else []

/-- Remainders after consuming at least one digit. -/
def digitTails1 : List Char → List (List Char)
  | [] => []
  | c :: rest => if c.isDigit then rest :: digitTails1 rest else []

def matchPre : RE → List Char → List (List Char)
  | .lit s, cs => if startsWithL s cs then [cs.drop s.length] else []
  | .oneOf chs, cs =>
    match cs with
    | c :: rest => if chs.contains c then [rest] else []
    | [] => []
  | .wsOne, cs =>
    match cs with
    | c :: rest => if isWsChar c then [rest] else []
    | [] => []
  | .wsMany0, cs => cs :: wsTails1 cs
  | .wsMany1, cs => wsTails1 cs
  | .digitOne, cs =>
    match cs with
    | c :: rest => if c.isDigit then [rest] else []
    | [] => []
  | .digitMany1, cs => digitTails1 cs
  | .seq a b, cs => (matchPre a cs).flatMap (matchPre b)
  | .alt a b, cs => matchPre a cs ++ matchPre b cs

def reSearch (re : RE) : List Char → Bool
  | [] => !(matchPre re []).isEmpty
  | c :: rest => !(matchPre re (c :: rest)).isEmpty || reSearch re rest

def reTest (re : RE) (s : String) : Bool := reSearch re s.data

/-- `/is\s+(a|an|the)\s+|defined\s+as|refers\s+to|means/` -/
def reDefinition : RE :=
  .alt (.seq (.lit "is".data) (.seq .wsMany1
        (.seq (.alt (.lit "a".data) (.alt (.lit "an".data) (.lit "the".data))) .wsMany1)))
  (.alt (.seq (.lit "defined".data) (.seq .wsMany1 (.lit "as".data)))
  (.alt (.seq (.lit "refers".data) (.seq .wsMany1 (.lit "to".data)))
        (.lit "means".data)))

/-- `/\d+\.|•|[-–—]\s|first|second|third|includes|types/` -/
def reListing : RE :=
  .alt (.seq .digitMany1 (.lit ".".data))
  (.alt (.lit "•".data)
  (.alt (.seq (.oneOf ['-', '–', '—']) .wsOne)
  (.alt (.lit "first".data)
  (.alt (.lit "second".data)
  (.alt (.lit "third".data)
  (.alt (.lit "includes".data) (.lit "types".data)))))))

/-- `/step\s*\d|first|then|next|finally|1\.|2\.|3\./` -/
def reProcedure : RE :=
  .alt (.seq (.lit "step".data) (.seq .wsMany0 .digitOne))
  (.alt (.lit "first".data)
  (.alt (.lit "then".data)
  (.alt (.lit "next".data)
  (.alt (.lit "finally".data)
  (.alt (.lit "1.".data)
  (.alt (.lit "2.".data) (.lit "3.".data)))))))

/-- `/\d+%|\d+\s*(percent|times|units|km|m|kg|g|ml|l)/` -/
def reQuantity : RE :=
  .alt (.seq .digitMany1 (.lit "%".data))
       (.seq .digitMany1 (.seq .wsMany0
         (.alt (.lit "percent".data)
         (.alt (.lit "times".data)
         (.alt (.lit "units".data)
         (.alt (.lit "km".data)
         (.alt (.lit "m".data)
         (.alt (.lit "kg".data)
         (.alt (.lit "g".data)
         (.alt (.lit "ml".data) (.lit "l".data)))))))))))

/-- The question-type structural bonus of `rerankDocuments`; the comparison
pattern `/however|whereas|while|unlike|but|compared|difference/` is a pure
literal alternation. -/
def typePatternTest (questionType : QuestionType) (contentLower : String) : Bool :=
  match questionType with
  | .definition => reTest reDefinition contentLower
  | .listing => reTest reListing contentLower
  | .procedure => reTest reProcedure contentLower
  | .quantity => reTest reQuantity contentLower
  | .comparison =>
    testAny contentLower ["however", "whereas", "while", "unlike", "but",
                          "compared", "difference"]
  | _ => false

/-! ### Reranking (`rerankDocuments`) -/

/-- The content-length adjustments of the rerank score, summed: −20 below 50
characters, a further −10 below 100, +5 above 300 and a further +5 above 500. -/
def lengthAdjustment (len : Nat) : ℚ :=
  (if len < 50 then -20 else 0) + (if len < 100 then -10 else 0)
  + (if len > 300 then 5 else 0) + (if len > 500 then 5 else 0)

/-- The additive heuristic score a candidate receives in `rerankDocuments`. -/
def rerankScoreOf (query : String) (questionType : QuestionType)
    (doc : MatchedDocument) : ℚ :=
  let st := extractSearchTerms query questionType
  let queryKeywords := extractKeywords query
  let contentLower := lowerStr doc.content
  let wordMatches : Nat :=
    (queryKeywords.filter (fun k => containsStr contentLower (lowerStr k))).length
  doc.similarity * 100
  + 8 * (wordMatches : ℚ)
  + (if 0 < queryKeywords.length then
      ((wordMatches : ℚ) / (queryKeywords.length : ℚ)) * 20 else 0)
  + 25 * (((st.primaryTerms.filter
      (fun t => containsStr contentLower (lowerStr t))).length : ℚ))
  + 10 * (((st.contextTerms.filter
      (fun t => containsStr contentLower (lowerStr t))).length : ℚ))
  + 5 * (((st.searchHints.filter
      (fun h => containsStr contentLower h)).length : ℚ))
  + (if typePatternTest questionType contentLower then 15 else 0)
  + lengthAdjustment doc.content.length

/-- A candidate together with its rerank score, mirroring the spread object
`{ ...doc, rerankScore }`. -/
structure RerankedDocument where
  doc : MatchedDocument
  rerankScore : ℚ
deriving DecidableEq

/-- The comparator `(a, b) => b.rerankScore - a.rerankScore`, as the relation
"may come no later than": descending by score. -/
def rerankRel (a b : RerankedDocument) : Prop := b.rerankScore ≤ a.rerankScore

instance : DecidableRel rerankRel :=
  fun a b => inferInstanceAs (Decidable (b.rerankScore ≤ a.rerankScore))

instance : IsTotal RerankedDocument rerankRel :=
  ⟨fun a b => le_total b.rerankScore a.rerankScore⟩

instance : IsTrans RerankedDocument rerankRel :=
  ⟨fun _ _ _ h₁ h₂ => le_trans h₂ h₁⟩

/-- `rerankDocuments` from the source: score every candidate, sort descending by
score (JavaScript `Array.prototype.sort` is stable, modelled by the stable
`List.insertionSort`), and truncate with `slice(0, topK)`. -/
def rerankDocuments (documents : List MatchedDocument) (query : String)
    (questionType : QuestionType) (topK : Nat) : List RerankedDocument :=
  let scored := documents.map
    (fun d => RerankedDocument.mk d (rerankScoreOf query questionType d))
  (List.insertionSort rerankRel scored).take topK

/-- Stability of the rerank sort: candidates with one fixed score appear in the
sorted list exactly as they appeared in the input. -/
theorem filter_insertionSort_rerank (l : List RerankedDocument) (s : ℚ) :
    (List.insertionSort rerankRel l).filter (fun d => decide (d.rerankScore = s)) =
      l.filter (fun d => decide (d.rerankScore = s)) := by
  have hpair : (l.filter (fun d => decide (d.rerankScore = s))).Pairwise rerankRel := by
    refine List.pairwise_of_forall_mem_list ?_
    intro a ha b hb
    have ha' := (List.mem_filter.mp ha).2
    have hb' := (List.mem_filter.mp hb).2
    simp only [decide_eq_true_eq] at ha' hb'
    show b.rerankScore ≤ a.rerankScore
    rw [ha', hb']
  have hsub : List.Sublist (l.filter (fun d => decide (d.rerankScore = s)))
      (List.insertionSort rerankRel l) :=
    List.sublist_insertionSort hpair (List.filter_sublist l)
  have hsub2 := hsub.filter (fun d => decide (d.rerankScore = s))
  rw [List.filter_filter] at hsub2
  have hid : (l.filter fun a =>
      decide (a.rerankScore = s) && decide (a.rerankScore = s)) =
      l.filter (fun d => decide (d.rerankScore = s)) := by
    simp only [Bool.and_self]
  rw [hid] at hsub2
  have hperm : ((List.insertionSort rerankRel l).filter
      (fun d => decide (d.rerankScore = s))).Perm
      (l.filter (fun d => decide (d.rerankScore = s))) :=
    (List.perm_insertionSort rerankRel l).filter _
  exact (hsub2.eq_of_length hperm.length_eq.symm).symm

/-- C5: for every candidate list, query, question type, and cap `topK`, the
reranker returns at most `topK` results, ordered by non-increasing total
heuristic score, and candidates with exactly equal scores keep their original
relative input order (the output restricted to any one score value is a prefix
of the input's candidates with that score, in input order). -/
theorem c5_rerank_sorted_capped_stable :
    ∀ (documents : List MatchedDocument) (query : String)
      (questionType : QuestionType) (topK : Nat),
      (rerankDocuments documents query questionType topK).length ≤ topK ∧
      (rerankDocuments documents query questionType topK).Pairwise
        (fun a b => b.rerankScore ≤ a.rerankScore) ∧
      ∀ s : ℚ,
        (rerankDocuments documents query questionType topK).filter
            (fun d => decide (d.rerankScore = s)) <+:
          (documents.map (fun d =>
            RerankedDocument.mk d (rerankScoreOf query questionType d))).filter
            (fun d => decide (d.rerankScore = s)) := by
  intro documents query questionType topK
  simp only [rerankDocuments]
  refine ⟨List.length_take_le _ _, ?_, ?_⟩
  · have hs := List.sorted_insertionSort rerankRel
      (documents.map (fun d => RerankedDocument.mk d (rerankScoreOf query questionType d)))
    exact List.Pairwise.sublist (List.take_sublist _ _) hs
  · intro s
    have heq := filter_insertionSort_rerank
      (documents.map (fun d => RerankedDocument.mk d (rerankScoreOf query questionType d))) s
    exact heq ▸ List.IsPrefix.filter _ (List.take_prefix _ _)

/-- C6: in the reranker's length adjustment, content of exactly 50 characters
receives only the −10 short-content penalty, content of exactly 100 characters
receives neither penalty, and content shorter than 50 characters receives both,
for a total of −30. -/
theorem c6_length_adjustment_boundaries :
    lengthAdjustment 50 = -10 ∧ lengthAdjustment 100 = 0 ∧
    ∀ len : Nat, len < 50 → lengthAdjustment len = -30 := by
  refine ⟨by norm_num [lengthAdjustment], by norm_num [lengthAdjustment], ?_⟩
  intro len h
  have h2 : len < 100 := by omega
  have h3 : ¬ len > 300 := by omega
  have h4 : ¬ len > 500 := by omega
  simp only [lengthAdjustment, if_pos h, if_pos h2, if_neg h3, if_neg h4]
  norm_num

/-- Witness for C6 at a concrete length below 50. -/
theorem c6_length_adjustment_witness :
    (10 : Nat) < 50 ∧ lengthAdjustment 10 = -30 :=
  ⟨by norm_num, c6_length_adjustment_boundaries.2.2 10 (by norm_num)⟩

/-! ### The hybrid retriever's merge step (`retrieveContext`) -/

/-- `Math.min` on rationals, written with an explicit comparison so that it
evaluates by iota reduction (the lattice `min` on `ℚ` does not). -/
def ratMin (a b : ℚ) : ℚ := if a ≤ b then a else b

theorem ratMin_eq_min (a b : ℚ) : ratMin a b = min a b := by
  rw [ratMin, min_def]

/-- A keyword hit absent from the semantic results is added with `+ 0.2`. -/
def boostKeyword (d : MatchedDocument) : MatchedDocument :=
  { d with similarity := d.similarity + 1/5 }

/-- A keyword hit duplicating an existing entry boosts it by `+ 0.15`, capped at 1. -/
def boostExisting (d : MatchedDocument) : MatchedDocument :=
  { d with similarity := ratMin (d.similarity + 3/20) 1 }

/-- `allResults.find(d => d.id === doc.id)` followed by the in-place similarity
update: rewrite the first entry carrying the given id. -/
def boostFirstWithId (i : Int) : List MatchedDocument → List MatchedDocument
  | [] => []
  | d :: ds => if d.id == i then boostExisting d :: ds else d :: boostFirstWithId i ds

/-- The first loop of the merge: semantic results deduplicated by id via `seenIds`. -/
def dedupeById (l : List MatchedDocument) : List MatchedDocument :=
  dedupBy (fun a b => a.id == b.id) l

/-- One iteration of the keyword loop of the merge.  Since `seenIds` always holds
exactly the ids present in `allResults`, the membership test is a scan of the
accumulator. -/
def mergeStep (acc : List MatchedDocument) (doc : MatchedDocument) :
    List MatchedDocument :=
  if acc.any (fun d => d.id == doc.id) then boostFirstWithId doc.id acc
  else acc ++ [boostKeyword doc]

/-- The merge step of `retrieveContext`: semantic results first (id-deduplicated),
then each keyword result either appended with a `+0.2` boost or used to boost the
existing entry by `+0.15` capped at 1. -/
def mergeResults (embeddingResults keywordResults : List MatchedDocument) :
    List MatchedDocument :=
  keywordResults.foldl mergeStep (dedupeById embeddingResults)

theorem boostExisting_id (d : MatchedDocument) : (boostExisting d).id = d.id := rfl

theorem boostKeyword_id (d : MatchedDocument) : (boostKeyword d).id = d.id := rfl

theorem boostFirstWithId_map_id (i : Int) :
    ∀ l : List MatchedDocument, (boostFirstWithId i l).map (·.id) = l.map (·.id) := by
  intro l
  induction l with
  | nil => rfl
  | cons d ds ih =>
    simp only [boostFirstWithId]
    by_cases h : d.id = i
    · simp [boostExisting, h]
    · have hb : (d.id == i) = false := by simp [h]
      simp only [hb, Bool.false_eq_true, if_false, List.map_cons, ih]

theorem any_id_map (l : List MatchedDocument) (x : Int) :
    l.any (fun d => d.id == x) = (l.map (·.id)).any (fun i => i == x) := by
  induction l with
  | nil => rfl
  | cons d ds ih => simp only [List.any_cons, List.map_cons, ih]

theorem any_id_congr {l₁ l₂ : List MatchedDocument}
    (h : l₁.map (·.id) = l₂.map (·.id)) (x : Int) :
    l₁.any (fun d => d.id == x) = l₂.any (fun d => d.id == x) := by
  rw [any_id_map, any_id_map, h]

theorem boostFirstWithId_eq_map {l : List MatchedDocument} (i : Int)
    (h : (l.map (·.id)).Nodup) :
    boostFirstWithId i l =
      l.map (fun d => if d.id == i then boostExisting d else d) := by
  induction l with
  | nil => rfl
  | cons d ds ih =>
    simp only [List.map_cons, List.nodup_cons, List.mem_map] at h
    simp only [boostFirstWithId, List.map_cons]
    by_cases hd : d.id = i
    · have hb : (d.id == i) = true := by simp [hd]
      simp only [hb, if_true, List.cons.injEq, true_and]
      have hall : ∀ e ∈ ds, (if e.id == i then boostExisting e else e) = e := by
        intro e he
        have hne : e.id ≠ i := by
          intro hei
          exact h.1 ⟨e, he, hei.trans hd.symm⟩
        simp [hne]
      have h2 := List.map_congr_left hall
      simp only [h2, List.map_id']
    · have hb : (d.id == i) = false := by simp [hd]
      simp only [hb, Bool.false_eq_true, if_false, List.cons.injEq, true_and]
      exact ih h.2

theorem foldl_mergeStep :
    ∀ (kw : List MatchedDocument) (acc : List MatchedDocument),
      (acc.map (·.id)).Nodup → (kw.map (·.id)).Nodup →
      kw.foldl mergeStep acc =
        acc.map (fun d => if kw.any (fun k => k.id == d.id) then boostExisting d else d)
        ++ (kw.filter (fun k => !(acc.any (fun d => d.id == k.id)))).map boostKeyword := by
  intro kw
  induction kw with
  | nil =>
    intro acc _ _
    simp
  | cons k kw' ih =>
    intro acc hacc hkw
    simp only [List.map_cons, List.nodup_cons, List.mem_map] at hkw
    obtain ⟨hknotin, hkw'⟩ := hkw
    have hkid : (kw'.any (fun a => a.id == k.id)) = false := by
      rw [Bool.eq_false_iff]
      intro hany
      obtain ⟨a, ha, hae⟩ := List.any_eq_true.mp hany
      exact hknotin ⟨a, ha, by simpa using hae⟩
    simp only [List.foldl_cons]
    by_cases hmem : acc.any (fun d => d.id == k.id) = true
    · have hstep : mergeStep acc k = boostFirstWithId k.id acc := by
        simp [mergeStep, hmem]
      rw [hstep]
      have hids := boostFirstWithId_map_id k.id acc
      have hacc' : ((boostFirstWithId k.id acc).map (·.id)).Nodup := by
        rw [hids]; exact hacc
      rw [ih _ hacc' hkw']
      have hmap : (boostFirstWithId k.id acc).map
          (fun d => if kw'.any (fun k₀ => k₀.id == d.id) then boostExisting d else d) =
          acc.map (fun d =>
            if (k :: kw').any (fun k₀ => k₀.id == d.id) then boostExisting d else d) := by
        rw [boostFirstWithId_eq_map k.id hacc, List.map_map]
        apply List.map_congr_left
        intro d _
        by_cases hdk : d.id = k.id
        · have h1 : (d.id == k.id) = true := by simp [hdk]
          have h2 : (kw'.any (fun k₀ => k₀.id == (boostExisting d).id)) = false := by
            rw [boostExisting_id, hdk]; exact hkid
          simp only [Function.comp_apply, h1, if_true, h2, Bool.false_eq_true, if_false,
            List.any_cons, hdk, beq_self_eq_true, Bool.true_or, if_true]
        · have h1 : (d.id == k.id) = false := by simp [hdk]
          have h1' : (k.id == d.id) = false := by
            rw [Bool.eq_false_iff]
            intro hbe
            exact hdk (beq_iff_eq.mp hbe).symm
          simp only [Function.comp_apply, h1, Bool.false_eq_true, if_false,
            List.any_cons, h1', Bool.false_or]
      have hfil : kw'.filter
          (fun k₀ => !((boostFirstWithId k.id acc).any (fun d => d.id == k₀.id))) =
          kw'.filter (fun k₀ => !(acc.any (fun d => d.id == k₀.id))) := by
        apply List.filter_congr
        intro a _
        rw [any_id_congr hids]
      have hfil2 : (k :: kw').filter (fun k₀ => !(acc.any (fun d => d.id == k₀.id))) =
          kw'.filter (fun k₀ => !(acc.any (fun d => d.id == k₀.id))) := by
        rw [List.filter_cons]
        simp [hmem]
      rw [hmap, hfil, hfil2]
    · have hmemf : acc.any (fun d => d.id == k.id) = false :=
        Bool.eq_false_iff.mpr hmem
      have hstep : mergeStep acc k = acc ++ [boostKeyword k] := by
        simp [mergeStep, hmemf]
      rw [hstep]
      have hnotin : ∀ d ∈ acc, (d.id == k.id) = false := by
        intro d hd
        rw [Bool.eq_false_iff]
        intro hbe
        have : acc.any (fun d => d.id == k.id) = true :=
          List.any_eq_true.mpr ⟨d, hd, hbe⟩
        rw [hmemf] at this
        exact Bool.false_ne_true this
      have hacc' : (((acc ++ [boostKeyword k]).map (·.id))).Nodup := by
        rw [List.map_append]
        rw [List.nodup_append]
        refine ⟨hacc, List.nodup_singleton _, ?_⟩
        intro i hi hi'
        simp only [List.map_cons, List.map_nil, List.mem_singleton, boostKeyword_id] at hi'
        obtain ⟨d, hd, hde⟩ := List.mem_map.mp hi
        have := hnotin d hd
        rw [Bool.eq_false_iff] at this
        exact this (by simp [hde, hi'])
      rw [ih _ hacc' hkw']
      have hmap : (acc ++ [boostKeyword k]).map
          (fun d => if kw'.any (fun k₀ => k₀.id == d.id) then boostExisting d else d) =
          acc.map (fun d =>
            if (k :: kw').any (fun k₀ => k₀.id == d.id) then boostExisting d else d)
          ++ [boostKeyword k] := by
        rw [List.map_append]
        congr 1
        · apply List.map_congr_left
          intro d hd
          have h1 : (k.id == d.id) = false := by
            have := hnotin d hd
            rw [Bool.eq_false_iff] at this ⊢
            intro hbe
            exact this (by simpa using (beq_iff_eq.mp hbe).symm)
          simp only [List.any_cons, h1, Bool.false_or]
        · have h2 : (kw'.any (fun k₀ => k₀.id == (boostKeyword k).id)) = false := by
            rw [boostKeyword_id]; exact hkid
          simp only [List.map_cons, List.map_nil, h2, Bool.false_eq_true, if_false]
      have hfil : kw'.filter
          (fun k₀ => !((acc ++ [boostKeyword k]).any (fun d => d.id == k₀.id))) =
          kw'.filter (fun k₀ => !(acc.any (fun d => d.id == k₀.id))) := by
        apply List.filter_congr
        intro a ha
        have h3 : ((boostKeyword k).id == a.id) = false := by
          rw [boostKeyword_id, Bool.eq_false_iff]
          intro hbe
          exact hknotin ⟨a, ha, (beq_iff_eq.mp hbe).symm⟩
        simp [List.any_append, h3]
      have hfil2 : (k :: kw').filter (fun k₀ => !(acc.any (fun d => d.id == k₀.id))) =
          k :: kw'.filter (fun k₀ => !(acc.any (fun d => d.id == k₀.id))) := by
        rw [List.filter_cons]
        simp [hmemf]
      rw [hmap, hfil, hfil2]
      simp only [List.map_cons, List.append_assoc, List.singleton_append]

/-- C2: for every pair of semantic-result and keyword-result lists (each with
pairwise-distinct chunk ids, as both search paths return), the merge step of the
hybrid retriever outputs each chunk id at most once; semantic results come
first, with an entry boosted by `+0.15` capped at 1.0 exactly when a keyword
result duplicates its id, followed by the keyword results whose id is not among
the semantic results, each with similarity increased by `+0.2`. -/
theorem c2_merge_characterization :
    ∀ (sem kw : List MatchedDocument),
      (sem.map (·.id)).Nodup → (kw.map (·.id)).Nodup →
      mergeResults sem kw =
        sem.map (fun d => if kw.any (fun k => k.id == d.id) then boostExisting d else d)
        ++ (kw.filter (fun k => !(sem.any (fun d => d.id == k.id)))).map boostKeyword
      ∧ ((mergeResults sem kw).map (·.id)).Nodup := by
  intro sem kw hsem hkw
  have hded : dedupeById sem = sem := by
    clear hkw
    induction sem with
    | nil => rfl
    | cons d ds ih =>
      simp only [List.map_cons, List.nodup_cons, List.mem_map] at hsem
      have hfil : ds.filter (fun y => !(y.id == d.id)) = ds := by
        apply List.filter_eq_self.mpr
        intro a ha
        have hane : (a.id == d.id) = false := by
          rw [Bool.eq_false_iff]
          intro hbe
          exact hsem.1 ⟨a, ha, beq_iff_eq.mp hbe⟩
        simp [hane]
      unfold dedupeById at ih ⊢
      rw [dedupBy_cons, hfil, ih hsem.2]
  have hchar : mergeResults sem kw =
      sem.map (fun d => if kw.any (fun k => k.id == d.id) then boostExisting d else d)
      ++ (kw.filter (fun k => !(sem.any (fun d => d.id == k.id)))).map boostKeyword := by
    unfold mergeResults
    rw [hded]
    exact foldl_mergeStep kw sem hsem hkw
  refine ⟨hchar, ?_⟩
  rw [hchar, List.map_append, List.nodup_append]
  have hmapids : (sem.map (fun d =>
      if kw.any (fun k => k.id == d.id) then boostExisting d else d)).map (·.id) =
      sem.map (·.id) := by
    rw [List.map_map]
    apply List.map_congr_left
    intro d _
    by_cases h : kw.any (fun k => k.id == d.id) = true
    · simp only [Function.comp_apply, if_pos h, boostExisting_id]
    · simp only [Function.comp_apply, if_neg h]
  refine ⟨hmapids ▸ hsem, ?_, ?_⟩
  · have hsub : List.Sublist
        ((kw.filter (fun k => !(sem.any (fun d => d.id == k.id)))).map (·.id))
        (kw.map (·.id)) :=
      (List.filter_sublist kw).map _
    have : ((kw.filter (fun k => !(sem.any (fun d => d.id == k.id)))).map boostKeyword).map
        (·.id) = (kw.filter (fun k => !(sem.any (fun d => d.id == k.id)))).map (·.id) := by
      rw [List.map_map]
      apply List.map_congr_left
      intro a _
      simp [Function.comp_apply, boostKeyword_id]
    rw [this]
    exact hkw.sublist hsub
  · intro i hi hi'
    rw [hmapids] at hi
    obtain ⟨d, hd, hde⟩ := List.mem_map.mp hi
    obtain ⟨b, hb, hbe⟩ := List.mem_map.mp hi'
    obtain ⟨a, ha, hae⟩ := List.mem_map.mp hb
    have hamem := (List.mem_filter.mp ha).2
    have hamem' : (sem.any fun d₀ => d₀.id == a.id) = false := by
      revert hamem
      cases sem.any fun d₀ => d₀.id == a.id <;> simp
    rw [Bool.eq_false_iff] at hamem'
    apply hamem'
    apply List.any_eq_true.mpr
    refine ⟨d, hd, ?_⟩
    have : a.id = i := by rw [← hbe, ← hae, boostKeyword_id]
    simp [hde, this]

def c2meta : DocumentMetadata := ⟨"doc.pdf", 1, 0⟩

def c2sem : List MatchedDocument :=
  [⟨1, "alpha", c2meta, 9/10⟩, ⟨2, "beta", c2meta, 1/2⟩]

def c2kw : List MatchedDocument :=
  [⟨2, "beta", c2meta, 3/5⟩, ⟨3, "gamma", c2meta, 2/5⟩]

/-- Witness for C2 on a concrete overlapping pair of result lists. -/
theorem c2_merge_witness :
    mergeResults c2sem c2kw =
      c2sem.map (fun d => if c2kw.any (fun k => k.id == d.id) then boostExisting d else d)
      ++ (c2kw.filter (fun k => !(c2sem.any (fun d => d.id == k.id)))).map boostKeyword
    ∧ ((mergeResults c2sem c2kw).map (·.id)).Nodup :=
  c2_merge_characterization c2sem c2kw (by decide) (by decide)

/-! ### The hybrid retriever (`retrieveContext`) -/

def TOP_K_RESULTS : Nat := 10
def SIMILARITY_THRESHOLD : ℚ := 1/10
def MAX_CONTEXT_LENGTH : Nat := 10000
def RERANK_TOP_K : Nat := 6

/-- `retrieveContext` from the source, with the two store calls supplied as
parameters: the embedding search is a hard dependency whose results are given,
and the keyword search is an outcome that may have failed (`.catch(() => [])`
turns a failure into the empty list).  The optimized search text built by
`buildSearchQuery` is consumed only by the external embedding call. -/
def retrieveContext (query : String) (embeddingResults : List MatchedDocument)
    (keywordSearchOutcome : Except String (List MatchedDocument)) :
    List RerankedDocument :=
  let questionType := detectQuestionType query
  let keywords := extractKeywords query
  let keywordResults :=
    if 0 < keywords.length then
      match keywordSearchOutcome with
      | .ok l => l
      | .error _ => []
    else []
  let allResults := mergeResults embeddingResults keywordResults
  let filtered := allResults.filter (fun d => SIMILARITY_THRESHOLD ≤ d.similarity)
  rerankDocuments filtered query questionType RERANK_TOP_K

/-- C9: for every query, a failed keyword-search path is treated exactly as an
empty keyword-result list: the retriever completes normally from the semantic
results alone, and the failure never propagates (the result does not depend on
the error). -/
theorem c9_keyword_failure_degrades_to_empty :
    ∀ (query : String) (embeddingResults : List MatchedDocument) (e : String),
      retrieveContext query embeddingResults (.error e) =
        retrieveContext query embeddingResults (.ok []) := by
  intro query embeddingResults e
  unfold retrieveContext
  by_cases h : 0 < (extractKeywords query).length
  · simp only [if_pos h]
  · simp only [if_neg h]

/-! ### Keyword search (`searchDocumentsByKeywords`) -/

structure StoredDocument where
  id : Int
  content : String
  metadata : DocumentMetadata
deriving DecidableEq

/-- One per-keyword store query: case-insensitive substring containment
(`ilike '%keyword%'`), an optional document-name equality filter, and the row
limit, modelled over the stored rows in store order. -/
def keywordQuery (store : List StoredDocument) (filterName : Option String)
    (matchCount : Nat) (keyword : String) : List StoredDocument :=
  (store.filter (fun d =>
    containsStr (lowerStr d.content) (lowerStr keyword)
    && (match filterName with
        | some n => d.metadata.document_name == n
        | none => true))).take matchCount

/-- Increment the match count of the (unique) entry carrying the given id. -/
def bumpFirst (i : Int) : List (StoredDocument × Nat) → List (StoredDocument × Nat)
  | [] => []
  | e :: es => if e.1.id == i then (e.1, e.2 + 1) :: es else e :: bumpFirst i es

/-- One iteration of the result-collection loop: a known id gets its match count
incremented, a new id is appended with count 1 (the `Map` keeps insertion order). -/
def bumpResult (acc : List (StoredDocument × Nat)) (d : StoredDocument) :
    List (StoredDocument × Nat) :=
  if acc.any (fun e => e.1.id == d.id) then bumpFirst d.id acc
  else acc ++ [(d, 1)]

def dedupeByIdS (l : List StoredDocument) : List StoredDocument :=
  dedupBy (fun a b => a.id == b.id) l

def accumulateKeywordMatches (store : List StoredDocument) (filterName : Option String)
    (matchCount : Nat) (kws : List String) : List (StoredDocument × Nat) :=
  kws.foldl (fun acc kw => (keywordQuery store filterName matchCount kw).foldl bumpResult acc) []

/-- The comparator `(a, b) => b.similarity - a.similarity` on matched documents. -/
def simRel (a b : MatchedDocument) : Prop := b.similarity ≤ a.similarity

instance : DecidableRel simRel :=
  fun a b => inferInstanceAs (Decidable (b.similarity ≤ a.similarity))

/-- `searchDocumentsByKeywords` from the source. -/
def searchDocumentsByKeywords (store : List StoredDocument) (keywords : List String)
    (matchCount : Nat) (filterName : Option String) : List MatchedDocument :=
  let validKeywords := keywords.filter (fun k => 2 < k.length)
  if validKeywords.isEmpty then []
  else
    let allResults := accumulateKeywordMatches store filterName matchCount
      (validKeywords.take 5)
    let results := allResults.map (fun e =>
      MatchedDocument.mk e.1.id e.1.content e.1.metadata
        (ratMin (3/10 + ((e.2 : ℚ) / (validKeywords.length : ℚ)) * (1/2)) (9/10)))
    (List.insertionSort simRel results).take matchCount

/-- The match count of an id: its total number of occurrences across the up to
five per-keyword query results. -/
def keywordMatchCount (store : List StoredDocument) (keywords : List String)
    (matchCount : Nat) (filterName : Option String) (i : Int) : Nat :=
  ((((keywords.filter (fun k => 2 < k.length)).take 5).map
      (fun kw => (keywordQuery store filterName matchCount kw).countP
        (fun d => d.id == i))).sum)

theorem bumpFirst_map_id (i : Int) :
    ∀ l : List (StoredDocument × Nat), (bumpFirst i l).map (fun e => e.1.id) =
      l.map (fun e => e.1.id) := by
  intro l
  induction l with
  | nil => rfl
  | cons e es ih =>
    simp only [bumpFirst]
    by_cases h : e.1.id = i
    · simp [h]
    · have hb : (e.1.id == i) = false := by simp [h]
      simp only [hb, Bool.false_eq_true, if_false, List.map_cons, ih]

theorem any_fstid_congr {l₁ l₂ : List (StoredDocument × Nat)}
    (h : l₁.map (fun e => e.1.id) = l₂.map (fun e => e.1.id)) (x : Int) :
    l₁.any (fun e => e.1.id == x) = l₂.any (fun e => e.1.id == x) := by
  have k₁ : ∀ l : List (StoredDocument × Nat),
      l.any (fun e => e.1.id == x) = (l.map (fun e => e.1.id)).any (fun i => i == x) := by
    intro l
    induction l with
    | nil => rfl
    | cons e es ih => simp only [List.any_cons, List.map_cons, ih]
  rw [k₁, k₁, h]

theorem bumpFirst_eq_map {l : List (StoredDocument × Nat)} (i : Int)
    (h : (l.map (fun e => e.1.id)).Nodup) :
    bumpFirst i l = l.map (fun e => if e.1.id == i then (e.1, e.2 + 1) else e) := by
  induction l with
  | nil => rfl
  | cons e es ih =>
    simp only [List.map_cons, List.nodup_cons, List.mem_map] at h
    simp only [bumpFirst, List.map_cons]
    by_cases hd : e.1.id = i
    · have hb : (e.1.id == i) = true := by simp [hd]
      simp only [hb, if_true, List.cons.injEq, true_and]
      have hall : ∀ a ∈ es, (if a.1.id == i then (a.1, a.2 + 1) else a) = a := by
        intro a ha
        have hne : a.1.id ≠ i := by
          intro hai
          exact h.1 ⟨a, ha, hai.trans hd.symm⟩
        simp [hne]
      have h2 := List.map_congr_left hall
      simp only [h2, List.map_id']
    · have hb : (e.1.id == i) = false := by simp [hd]
      simp only [hb, Bool.false_eq_true, if_false, List.cons.injEq, true_and]
      exact ih h.2

theorem foldl_bumpResult :
    ∀ (L : List StoredDocument) (acc : List (StoredDocument × Nat)),
      ((acc.map (fun e => e.1.id)).Nodup) →
      L.foldl bumpResult acc =
        acc.map (fun e => (e.1, e.2 + L.countP (fun d => d.id == e.1.id)))
        ++ (dedupeByIdS (L.filter (fun d => !(acc.any (fun e => e.1.id == d.id))))).map
            (fun d => (d, L.countP (fun x => x.id == d.id))) := by
  intro L
  induction L with
  | nil =>
    intro acc _
    simp [dedupeByIdS, dedupBy_nil]
  | cons x L' ih =>
    intro acc hacc
    simp only [List.foldl_cons]
    by_cases hmem : acc.any (fun e => e.1.id == x.id) = true
    · have hstep : bumpResult acc x = bumpFirst x.id acc := by
        simp [bumpResult, hmem]
      rw [hstep]
      have hids := bumpFirst_map_id x.id acc
      have hacc' : ((bumpFirst x.id acc).map (fun e => e.1.id)).Nodup := by
        rw [hids]; exact hacc
      rw [ih _ hacc']
      have hmap : (bumpFirst x.id acc).map
          (fun e => (e.1, e.2 + L'.countP (fun d => d.id == e.1.id))) =
          acc.map (fun e => (e.1, e.2 + (x :: L').countP (fun d => d.id == e.1.id))) := by
        rw [bumpFirst_eq_map x.id hacc, List.map_map]
        apply List.map_congr_left
        intro e _
        by_cases hde : e.1.id = x.id
        · have h1 : (e.1.id == x.id) = true := by simp [hde]
          have h2 : (x.id == e.1.id) = true := by simp [hde.symm]
          simp only [Function.comp_apply, h1, if_true, List.countP_cons, h2, if_true]
          simp only [Prod.mk.injEq, true_and]
          omega
        · have h1 : (e.1.id == x.id) = false := by simp [hde]
          have h2 : (x.id == e.1.id) = false := by
            rw [Bool.eq_false_iff]
            intro hbe
            exact hde (beq_iff_eq.mp hbe).symm
          simp only [Function.comp_apply, h1, Bool.false_eq_true, if_false,
            List.countP_cons, h2, Bool.false_eq_true, if_false, Nat.add_zero]
      have hfil : L'.filter
          (fun d => !((bumpFirst x.id acc).any (fun e => e.1.id == d.id))) =
          L'.filter (fun d => !(acc.any (fun e => e.1.id == d.id))) := by
        apply List.filter_congr
        intro a _
        rw [any_fstid_congr hids]
      have hfil2 : (x :: L').filter (fun d => !(acc.any (fun e => e.1.id == d.id))) =
          L'.filter (fun d => !(acc.any (fun e => e.1.id == d.id))) := by
        rw [List.filter_cons]
        simp [hmem]
      have hcnt : (dedupeByIdS (L'.filter
            (fun d => !(acc.any (fun e => e.1.id == d.id))))).map
            (fun d => (d, L'.countP (fun y => y.id == d.id))) =
          (dedupeByIdS (L'.filter (fun d => !(acc.any (fun e => e.1.id == d.id))))).map
            (fun d => (d, (x :: L').countP (fun y => y.id == d.id))) := by
        apply List.map_congr_left
        intro d hd
        have hdin : d ∈ L'.filter (fun d => !(acc.any (fun e => e.1.id == d.id))) :=
          mem_of_mem_dedupBy _ hd
        have hnotacc := (List.mem_filter.mp hdin).2
        have hne : d.id ≠ x.id := by
          intro hdx
          have hh : acc.any (fun e => e.1.id == d.id) = true := by
            rw [hdx]; exact hmem
          rw [hh] at hnotacc
          simp at hnotacc
        have h2 : (x.id == d.id) = false := by
          rw [Bool.eq_false_iff]
          intro hbe
          exact hne (beq_iff_eq.mp hbe).symm
        simp only [List.countP_cons, h2, Bool.false_eq_true, if_false, Nat.add_zero]
      rw [hmap, hfil, hfil2, hcnt]
    · have hmemf : acc.any (fun e => e.1.id == x.id) = false :=
        Bool.eq_false_iff.mpr hmem
      have hstep : bumpResult acc x = acc ++ [(x, 1)] := by
        simp [bumpResult, hmemf]
      rw [hstep]
      have hnotin : ∀ e ∈ acc, (e.1.id == x.id) = false := by
        intro e he
        rw [Bool.eq_false_iff]
        intro hbe
        have : acc.any (fun e => e.1.id == x.id) = true :=
          List.any_eq_true.mpr ⟨e, he, hbe⟩
        rw [hmemf] at this
        exact Bool.false_ne_true this
      have hacc' : (((acc ++ [(x, 1)]).map (fun (e : StoredDocument × Nat) => e.1.id))).Nodup := by
        rw [List.map_append, List.nodup_append]
        refine ⟨hacc, List.nodup_singleton _, ?_⟩
        intro i hi hi'
        simp only [List.map_cons, List.map_nil, List.mem_singleton] at hi'
        obtain ⟨e, he, hee⟩ := List.mem_map.mp hi
        have := hnotin e he
        rw [Bool.eq_false_iff] at this
        exact this (by simp [hee, hi'])
      rw [ih _ hacc']
      have hmap : (acc ++ [(x, 1)]).map
          (fun (e : StoredDocument × Nat) =>
            (e.1, e.2 + L'.countP (fun (d : StoredDocument) => d.id == e.1.id))) =
          acc.map (fun (e : StoredDocument × Nat) =>
            (e.1, e.2 + (x :: L').countP (fun (d : StoredDocument) => d.id == e.1.id)))
          ++ [(x, 1 + L'.countP (fun (d : StoredDocument) => d.id == x.id))] := by
        rw [List.map_append]
        congr 1
        · apply List.map_congr_left
          intro e he
          have h2 : (x.id == e.1.id) = false := by
            rw [Bool.eq_false_iff]
            intro hbe
            have hxe : x.id = e.1.id := beq_iff_eq.mp hbe
            have h3 := hnotin e he
            rw [Bool.eq_false_iff] at h3
            exact h3 (by simp [hxe.symm])
          simp only [List.countP_cons, h2, Bool.false_eq_true, if_false, Nat.add_zero]
      have hfil : L'.filter
          (fun d => !((acc ++ [(x, 1)]).any (fun e => e.1.id == d.id))) =
          (L'.filter (fun d => !(acc.any (fun e => e.1.id == d.id)))).filter
            (fun d => !(d.id == x.id)) := by
        rw [List.filter_filter]
        apply List.filter_congr
        intro a _
        simp only [List.any_append, List.any_cons, List.any_nil, Bool.or_false,
          Bool.not_or]
        have hxa : (x.id == a.id) = (a.id == x.id) := by
          by_cases h : x.id = a.id
          · rw [h]
          · have h1 : (x.id == a.id) = false := by simp [h]
            have h2 : (a.id == x.id) = false := by
              rw [Bool.eq_false_iff]
              intro hbe
              exact h (beq_iff_eq.mp hbe).symm
            rw [h1, h2]
        rw [hxa]
        rw [Bool.and_comm]
      have hfil2 : (x :: L').filter (fun d => !(acc.any (fun e => e.1.id == d.id))) =
          x :: L'.filter (fun d => !(acc.any (fun e => e.1.id == d.id))) := by
        rw [List.filter_cons]
        simp [hmemf]
      have hded : dedupeByIdS ((x :: L').filter
            (fun d => !(acc.any (fun e => e.1.id == d.id)))) =
          x :: dedupeByIdS ((L'.filter (fun d => !(acc.any (fun e => e.1.id == d.id)))).filter
            (fun d => !(d.id == x.id))) := by
        rw [hfil2]
        unfold dedupeByIdS
        rw [dedupBy_cons]
      have hcnt : ∀ d ∈ dedupeByIdS ((L'.filter
            (fun d => !(acc.any (fun e => e.1.id == d.id)))).filter
            (fun d => !(d.id == x.id))),
          ((d, (x :: L').countP (fun y => y.id == d.id)) : StoredDocument × Nat) =
            (d, L'.countP (fun y => y.id == d.id)) := by
        intro d hd
        have hdin : d ∈ (L'.filter (fun d => !(acc.any (fun e => e.1.id == d.id)))).filter
            (fun d => !(d.id == x.id)) :=
          mem_of_mem_dedupBy _ hd
        have hdx := (List.mem_filter.mp hdin).2
        have hne : (x.id == d.id) = false := by
          rw [Bool.eq_false_iff]
          intro hbe
          have hxd : x.id = d.id := beq_iff_eq.mp hbe
          have hdx' : (d.id == x.id) = true := by simp [hxd.symm]
          rw [hdx'] at hdx
          simp at hdx
        simp only [List.countP_cons, hne, Bool.false_eq_true, if_false, Nat.add_zero]
      rw [hmap, hfil, hded]
      simp only [List.map_cons]
      rw [List.map_congr_left hcnt]
      have hhead : ((x, (x :: L').countP (fun y => y.id == x.id)) : StoredDocument × Nat)
          = (x, 1 + L'.countP (fun y => y.id == x.id)) := by
        simp only [List.countP_cons, beq_self_eq_true, if_true, Prod.mk.injEq, true_and]
        omega
      rw [hhead]
      simp only [List.append_assoc, List.singleton_append]

theorem countP_flatten_eq_sum (p : StoredDocument → Bool) :
    ∀ L : List (List StoredDocument),
      L.flatten.countP p = (L.map (fun l => l.countP p)).sum := by
  intro L
  induction L with
  | nil => rfl
  | cons l ls ih =>
    simp only [List.flatten_cons, List.countP_append, List.map_cons, List.sum_cons, ih]

theorem accumulateKeywordMatches_eq (store : List StoredDocument)
    (filterName : Option String) (matchCount : Nat) (kws : List String) :
    accumulateKeywordMatches store filterName matchCount kws =
      (dedupeByIdS ((kws.map (keywordQuery store filterName matchCount)).flatten)).map
        (fun d => (d, ((kws.map (keywordQuery store filterName matchCount)).flatten).countP
          (fun x => x.id == d.id))) := by
  unfold accumulateKeywordMatches
  have h1 : kws.foldl (fun acc kw =>
      (keywordQuery store filterName matchCount kw).foldl bumpResult acc) [] =
      ((kws.map (keywordQuery store filterName matchCount)).flatten).foldl bumpResult [] := by
    rw [List.foldl_flatten, List.foldl_map]
  rw [h1, foldl_bumpResult _ [] (by simp)]
  simp only [List.map_nil, List.nil_append, List.any_nil, Bool.not_false, List.filter_true]

/-- C4: for every keyword search over a non-empty list of valid keywords
(length > 2), each returned chunk's similarity equals
`min(0.3 + (its keyword match count / total number of valid keywords) × 0.5, 0.9)`;
in particular every keyword-path similarity is at most 0.9. -/
theorem c4_keyword_similarity_formula :
    ∀ (store : List StoredDocument) (keywords : List String) (matchCount : Nat)
      (filterName : Option String),
      keywords.filter (fun k => 2 < k.length) ≠ [] →
      ∀ d ∈ searchDocumentsByKeywords store keywords matchCount filterName,
        d.similarity =
          min (3/10 + ((keywordMatchCount store keywords matchCount filterName d.id : ℚ)
            / (((keywords.filter (fun k => 2 < k.length)).length : ℚ))) * (1/2)) (9/10)
        ∧ d.similarity ≤ 9/10 := by
  intro store keywords matchCount filterName hne d hd
  have hE : (keywords.filter (fun k => 2 < k.length)).isEmpty = false :=
    List.isEmpty_eq_false.mpr hne
  simp only [searchDocumentsByKeywords, hE, Bool.false_eq_true, if_false] at hd
  have hd2 := List.mem_of_mem_take hd
  rw [List.mem_insertionSort] at hd2
  obtain ⟨e, he, hde⟩ := List.mem_map.mp hd2
  rw [accumulateKeywordMatches_eq] at he
  obtain ⟨d₀, _, hed⟩ := List.mem_map.mp he
  have hcnt : (e.2 : Nat) =
      keywordMatchCount store keywords matchCount filterName e.1.id := by
    rw [← hed]
    unfold keywordMatchCount
    rw [countP_flatten_eq_sum, List.map_map]
    rfl
  have hsim : d.similarity =
      min (3/10 + ((e.2 : ℚ) /
        (((keywords.filter (fun k => 2 < k.length)).length : ℚ))) * (1/2)) (9/10) := by
    rw [← hde]
    exact ratMin_eq_min _ _
  have hid : d.id = e.1.id := by rw [← hde]
  refine ⟨?_, ?_⟩
  · rw [hsim, hcnt, hid]
  · rw [hsim]
    exact min_le_right _ _

def c4meta : DocumentMetadata := ⟨"doc.pdf", 1, 0⟩

def c4store : List StoredDocument := [⟨1, "alpha beta", c4meta⟩]

/-- Witness for C4: a one-row store and the single keyword `"alpha"` give the
returned chunk similarity `min(0.3 + (1/1)×0.5, 0.9) = 0.8`. -/
theorem c4_keyword_similarity_witness :
    (MatchedDocument.mk 1 "alpha beta" c4meta (4/5)).similarity =
      min (3/10 + ((keywordMatchCount c4store ["alpha"] 10 none
          (MatchedDocument.mk 1 "alpha beta" c4meta (4/5)).id : ℚ)
        / (((["alpha"].filter (fun k => 2 < k.length)).length : ℚ))) * (1/2)) (9/10)
    ∧ (MatchedDocument.mk 1 "alpha beta" c4meta (4/5)).similarity ≤ 9/10 :=
  c4_keyword_similarity_formula c4store ["alpha"] 10 none (by decide) _ (by decide)

/-! ### Context assembly (`formatContext`) -/

/-- Rendering of `(x).toFixed(1)` for the non-negative relevance percentages
that occur here: one decimal digit, rounding half up. -/
def toFixed1 (q : ℚ) : String :=
  let n : Nat := (Rat.floor (q * 10 + 1/2)).toNat
  toString (n / 10) ++ "." ++ toString (n % 10)

/-- One rendered block:
``"[Page <n>, Relevance: <similarity*100 to 1 decimal>%]\n<content>\n\n"``. -/
def sectionString (page : Int) (doc : MatchedDocument) : String :=
  "[Page " ++ toString page ++ ", Relevance: " ++ toFixed1 (doc.similarity * 100)
    ++ "%]\n" ++ doc.content ++ "\n\n"

/-- JavaScript `String.prototype.trim`: strip whitespace from both ends. -/
def trimStr (s : String) : String :=
  String.mk (((s.data.dropWhile isWsChar).reverse.dropWhile isWsChar).reverse)

/-- The page keys in insertion order (`Map` iteration order), sorted ascending
by `(a, b) => a - b`. -/
def pagesOf (documents : List MatchedDocument) : List Int :=
  List.insertionSort (fun a b : Int => a ≤ b)
    (dedupFirst (documents.map (fun d => d.metadata.page_number)))

/-- The group a page key maps to: the candidates pushed for it, in input order. -/
def pageDocs (documents : List MatchedDocument) (p : Int) : List MatchedDocument :=
  documents.filter (fun d => d.metadata.page_number == p)

/-- The inner loop over one page's candidates; `break` on the first block that
would push the accumulated length past `MAX_CONTEXT_LENGTH`. -/
def pageLoop (page : Int) : List MatchedDocument → String → Nat → String × Nat
  | [], context, total => (context, total)
  | doc :: rest, context, total =>
    let sec := sectionString page doc
    if MAX_CONTEXT_LENGTH < total + sec.length then (context, total)
    else pageLoop page rest (context ++ sec) (total + sec.length)

/-- The outer loop over the ascending page keys; note that it continues past a
page whose assembly was cut off, carrying the accumulated state. -/
def pagesLoop (documents : List MatchedDocument) :
    List Int → String → Nat → String × Nat
  | [], context, total => (context, total)
  | p :: ps, context, total =>
    let r := pageLoop p (pageDocs documents p) context total
    pagesLoop documents ps r.1 r.2

def noContextSentinel : String := "No relevant context found in the documents."

/-- `formatContext` from the source. -/
def formatContext (documents : List MatchedDocument) : String :=
  if documents.isEmpty then noContextSentinel
  else trimStr (pagesLoop documents (pagesOf documents) "" 0).1

def joinStr : List String → String
  | [] => ""
  | s :: ss => s ++ joinStr ss

/-- Spec-side per-page assembly: the longest prefix of the page's blocks that
the running budget admits, stopping at the first overflowing block. -/
def budgetTake (total : Nat) : List String → List String
  | [] => []
  | s :: ss => if MAX_CONTEXT_LENGTH < total + s.length then []
               else s :: budgetTake (total + s.length) ss

/-- Spec-side assembly over the pages: each page contributes its budget prefix,
and the running total carries over to later pages unchanged by dropped blocks. -/
def assemblePages (total : Nat) : List (List String) → List String
  | [] => []
  | pageSecs :: rest =>
    let incl := budgetTake total pageSecs
    incl ++ assemblePages (total + (incl.map String.length).sum) rest

/-- Spec-side restatement of `formatContext` used by the amended C7. -/
def formatContextSpec (documents : List MatchedDocument) : String :=
  if documents.isEmpty then noContextSentinel
  else trimStr (joinStr (assemblePages 0
    ((pagesOf documents).map (fun p => (pageDocs documents p).map (sectionString p)))))

theorem joinStr_append : ∀ a b : List String, joinStr (a ++ b) = joinStr a ++ joinStr b := by
  intro a b
  induction a with
  | nil => simp [joinStr, String.empty_append]
  | cons s ss ih => simp [joinStr, ih, String.append_assoc]

theorem pageLoop_spec (page : Int) :
    ∀ (docs : List MatchedDocument) (context : String) (total : Nat),
      pageLoop page docs context total =
        (context ++ joinStr (budgetTake total (docs.map (sectionString page))),
         total + ((budgetTake total (docs.map (sectionString page))).map
           String.length).sum) := by
  intro docs
  induction docs with
  | nil =>
    intro context total
    simp [pageLoop, budgetTake, joinStr, String.append_empty]
  | cons doc rest ih =>
    intro context total
    simp only [pageLoop, List.map_cons, budgetTake]
    by_cases h : MAX_CONTEXT_LENGTH < total + (sectionString page doc).length
    · simp [h, joinStr, String.append_empty]
    · simp only [h, if_false]
      rw [ih]
      simp only [joinStr, List.map_cons, List.sum_cons, String.append_assoc,
        Prod.mk.injEq]
      exact ⟨trivial, by omega⟩

theorem pagesLoop_spec (documents : List MatchedDocument) :
    ∀ (pages : List Int) (context : String) (total : Nat),
      pagesLoop documents pages context total =
        (context ++ joinStr (assemblePages total
          (pages.map (fun p => (pageDocs documents p).map (sectionString p)))),
         total + ((assemblePages total
          (pages.map (fun p => (pageDocs documents p).map (sectionString p)))).map
            String.length).sum) := by
  intro pages
  induction pages with
  | nil =>
    intro context total
    simp [pagesLoop, assemblePages, joinStr, String.append_empty]
  | cons p ps ih =>
    intro context total
    simp only [pagesLoop, List.map_cons, assemblePages]
    rw [pageLoop_spec, ih]
    rw [joinStr_append, List.map_append, List.sum_append, String.append_assoc]
    simp only [Prod.mk.injEq]
    exact ⟨trivial, by omega⟩

/-- C7 amended: for every candidate list, `formatContext` processes pages in
ascending order threading one running character total; within a page it
accumulates blocks until the first block that would exceed the budget, at which
point the REST OF THAT PAGE is dropped, while subsequent pages are still
evaluated against the unchanged running total (a later page's block that fits
is still appended). -/
theorem c7_budget_cutoff_amended :
    ∀ documents : List MatchedDocument,
      formatContext documents = formatContextSpec documents := by
  intro documents
  unfold formatContext formatContextSpec
  by_cases h : documents.isEmpty
  · simp [h]
  · simp only [h, Bool.false_eq_true, if_false]
    rw [pagesLoop_spec]
    rw [String.empty_append]

theorem dropWhile_ws_cons (c : Char) (l : List Char) (h : isWsChar c = false) :
    List.dropWhile isWsChar (c :: l) = c :: l := by
  rw [List.dropWhile_cons, h]
  simp

/-- Trimming a string that starts with a non-whitespace character and ends with
a non-whitespace character followed by exactly `"\n\n"` strips exactly that tail. -/
theorem trimStr_shape (c d : Char) (mid : List Char)
    (hc : isWsChar c = false) (hd : isWsChar d = false) :
    trimStr (String.mk (c :: (mid ++ (d :: '\n' :: '\n' :: [])))) =
      String.mk (c :: (mid ++ [d])) := by
  unfold trimStr
  have hdata : (String.mk (c :: (mid ++ (d :: '\n' :: '\n' :: [])))).data =
      c :: (mid ++ (d :: '\n' :: '\n' :: [])) := rfl
  rw [hdata, dropWhile_ws_cons _ _ hc]
  have h1 : (c :: (mid ++ (d :: '\n' :: '\n' :: []))).reverse =
      '\n' :: '\n' :: d :: (mid.reverse ++ [c]) := by
    rw [List.reverse_cons]
    rw [show (mid ++ (d :: '\n' :: '\n' :: [])) = (mid ++ [d]) ++ ['\n', '\n'] by
      simp [List.append_assoc]]
    rw [List.reverse_append, List.reverse_append]
    simp
  rw [h1]
  have hn : isWsChar '\n' = true := by decide
  rw [List.dropWhile_cons, hn, if_pos rfl, List.dropWhile_cons, hn, if_pos rfl,
    dropWhile_ws_cons _ _ hd]
  rw [show (d :: (mid.reverse ++ [c])).reverse = ((c :: mid) ++ [d] : List Char) by
    simp]
  simp

def c7docA : MatchedDocument :=
  ⟨1, String.mk (List.replicate 9900 'a'), ⟨"doc.pdf", 1, 0⟩, 1/2⟩

def c7docB : MatchedDocument :=
  ⟨2, String.mk (List.replicate 100 'b'), ⟨"doc.pdf", 1, 1⟩, 1/2⟩

def c7docC : MatchedDocument := ⟨3, "hi", ⟨"doc.pdf", 2, 2⟩, 1/2⟩

theorem c7_secA_eq : sectionString 1 c7docA =
    "[Page 1, Relevance: 50.0%]\n" ++ c7docA.content ++ "\n\n" := by
  unfold sectionString
  rw [show ("[Page " ++ toString (1 : Int) ++ ", Relevance: "
      ++ toFixed1 (c7docA.similarity * 100) ++ "%]\n") = "[Page 1, Relevance: 50.0%]\n"
    by decide]

theorem c7_contentA_length : c7docA.content.length = 9900 := by
  show (String.mk (List.replicate 9900 'a')).length = 9900
  rw [String.length_mk, List.length_replicate]

theorem c7_secA_length : (sectionString 1 c7docA).length = 9929 := by
  rw [c7_secA_eq, String.length_append, String.length_append, c7_contentA_length]
  decide

theorem c7_secB_length : (sectionString 1 c7docB).length = 129 := by
  have h : sectionString 1 c7docB =
      "[Page 1, Relevance: 50.0%]\n" ++ c7docB.content ++ "\n\n" := by
    unfold sectionString
    rw [show ("[Page " ++ toString (1 : Int) ++ ", Relevance: "
        ++ toFixed1 (c7docB.similarity * 100) ++ "%]\n") = "[Page 1, Relevance: 50.0%]\n"
      by decide]
  have hc : c7docB.content.length = 100 := by
    show (String.mk (List.replicate 100 'b')).length = 100
    rw [String.length_mk, List.length_replicate]
  rw [h, String.length_append, String.length_append, hc]
  decide

theorem c7_secC_eq : sectionString 2 c7docC = "[Page 2, Relevance: 50.0%]\nhi\n\n" := by
  decide

theorem c7_secC_length : (sectionString 2 c7docC).length = 31 := by
  rw [c7_secC_eq]
  decide

theorem stringExt {s t : String} (h : s.data = t.data) : s = t := by
  cases s
  cases t
  exact congrArg String.mk h

theorem budgetTake_cons (total : Nat) (s : String) (ss : List String) :
    budgetTake total (s :: ss) =
      if MAX_CONTEXT_LENGTH < total + s.length then []
      else s :: budgetTake (total + s.length) ss := rfl

theorem assemblePages_cons (total : Nat) (pageSecs : List String)
    (rest : List (List String)) :
    assemblePages total (pageSecs :: rest) =
      budgetTake total pageSecs
      ++ assemblePages (total + ((budgetTake total pageSecs).map String.length).sum)
          rest := rfl

/-- C7 counterexample: with two page-1 blocks of lengths 9929 and 129 and one
page-2 block of length 31, the second page-1 block overflows the 10000-character
budget, yet the page-2 block is still appended: the output equals
`trim(blockA ++ blockC)` and differs from the `trim(blockA)` that "all remaining
candidates and all remaining pages are silently dropped" would give.  The inner
`break` of the source exits only the per-page loop, so blocks of later pages do
appear after a cutoff; the claim is false as stated. -/
theorem c7_budget_cutoff_counterexample :
    formatContext [c7docA, c7docB, c7docC] =
      trimStr (sectionString 1 c7docA ++ sectionString 2 c7docC) ∧
    formatContext [c7docA, c7docB, c7docC] ≠ trimStr (sectionString 1 c7docA) := by
  have hA : (c7docA.metadata.page_number == (1 : Int)) = true := by decide
  have hB : (c7docB.metadata.page_number == (1 : Int)) = true := by decide
  have hC : (c7docC.metadata.page_number == (1 : Int)) = false := by decide
  have hA2 : (c7docA.metadata.page_number == (2 : Int)) = false := by decide
  have hB2 : (c7docB.metadata.page_number == (2 : Int)) = false := by decide
  have hC2 : (c7docC.metadata.page_number == (2 : Int)) = true := by decide
  have hpd1 : pageDocs [c7docA, c7docB, c7docC] 1 = [c7docA, c7docB] := by
    simp only [pageDocs, List.filter_cons, List.filter_nil, hA, hB, hC,
      eq_self_iff_true, if_true, Bool.false_eq_true, if_false]
  have hpd2 : pageDocs [c7docA, c7docB, c7docC] 2 = [c7docC] := by
    simp only [pageDocs, List.filter_cons, List.filter_nil, hA2, hB2, hC2,
      eq_self_iff_true, if_true, Bool.false_eq_true, if_false]
  have hpages : pagesOf [c7docA, c7docB, c7docC] = [1, 2] := by decide
  have hmain : formatContext [c7docA, c7docB, c7docC] =
      trimStr (sectionString 1 c7docA ++ sectionString 2 c7docC) := by
    have hne : ([c7docA, c7docB, c7docC] : List MatchedDocument).isEmpty = false := rfl
    unfold formatContext
    rw [hne]
    simp only [Bool.false_eq_true, if_false]
    rw [pagesLoop_spec, String.empty_append, hpages]
    simp only [List.map_cons, List.map_nil, hpd1, hpd2]
    rw [assemblePages_cons, budgetTake_cons, c7_secA_length]
    rw [if_neg (by decide : ¬(MAX_CONTEXT_LENGTH < 0 + 9929))]
    rw [budgetTake_cons, c7_secB_length]
    rw [if_pos (by decide : MAX_CONTEXT_LENGTH < 0 + 9929 + 129)]
    rw [assemblePages_cons, budgetTake_cons, c7_secC_length]
    rw [List.map_cons, List.map_nil, List.sum_cons, List.sum_nil, c7_secA_length]
    simp [assemblePages, budgetTake, joinStr, MAX_CONTEXT_LENGTH, String.append_empty]
  refine ⟨hmain, ?_⟩
  rw [hmain]
  intro heq
  have hAshape : sectionString 1 c7docA =
      String.mk ('[' :: (("Page 1, Relevance: 50.0%]\n".data
        ++ List.replicate 9899 'a') ++ ('a' :: '\n' :: '\n' :: []))) := by
    rw [c7_secA_eq]
    apply stringExt
    rw [String.data_append, String.data_append]
    rw [show ("[Page 1, Relevance: 50.0%]\n" : String).data =
      '[' :: ("Page 1, Relevance: 50.0%]\n" : String).data by decide]
    rw [show c7docA.content.data = List.replicate 9900 'a' from rfl]
    rw [show (9900 : Nat) = 9899 + 1 from rfl, List.replicate_succ']
    rw [show ("\n\n" : String).data = '\n' :: '\n' :: [] by decide]
    simp only [List.append_assoc, List.cons_append, List.nil_append]
  have hACshape : sectionString 1 c7docA ++ sectionString 2 c7docC =
      String.mk ('[' :: ((("Page 1, Relevance: 50.0%]\n".data
        ++ List.replicate 9900 'a') ++ ('\n' :: '\n' ::
          "[Page 2, Relevance: 50.0%]\nh".data))
        ++ ('i' :: '\n' :: '\n' :: []))) := by
    apply stringExt
    rw [String.data_append]
    rw [show (sectionString 2 c7docC).data =
      "[Page 2, Relevance: 50.0%]\nh".data ++ ('i' :: '\n' :: '\n' :: []) by
        rw [c7_secC_eq]; decide]
    rw [c7_secA_eq]
    rw [String.data_append, String.data_append]
    rw [show ("[Page 1, Relevance: 50.0%]\n" : String).data =
      '[' :: ("Page 1, Relevance: 50.0%]\n" : String).data by decide]
    rw [show c7docA.content.data = List.replicate 9900 'a' from rfl]
    rw [show ("\n\n" : String).data = '\n' :: '\n' :: [] by decide]
    simp only [List.append_assoc, List.cons_append, List.nil_append]
  rw [hACshape, hAshape] at heq
  rw [trimStr_shape _ _ _ (by decide) (by decide),
    trimStr_shape _ _ _ (by decide) (by decide)] at heq
  have hdd := congrArg String.data heq
  have hlen := congrArg List.length hdd
  simp only [List.length_cons, List.length_append, List.length_replicate,
    List.length_nil] at hlen
  omega

theorem pageLoop_cons (page : Int) (doc : MatchedDocument)
    (rest : List MatchedDocument) (context : String) (total : Nat) :
    pageLoop page (doc :: rest) context total =
      if MAX_CONTEXT_LENGTH < total + (sectionString page doc).length then
        (context, total)
      else pageLoop page rest (context ++ sectionString page doc)
        (total + (sectionString page doc).length) := rfl

def c10doc : MatchedDocument :=
  ⟨1, String.mk (List.replicate 9972 'a'), ⟨"doc.pdf", 1, 0⟩, 1/2⟩

theorem c10_sec_length :
    (sectionString c10doc.metadata.page_number c10doc).length = 10001 := by
  have h : sectionString c10doc.metadata.page_number c10doc =
      "[Page 1, Relevance: 50.0%]\n" ++ c10doc.content ++ "\n\n" := by
    unfold sectionString
    rw [show ("[Page " ++ toString c10doc.metadata.page_number ++ ", Relevance: "
        ++ toFixed1 (c10doc.similarity * 100) ++ "%]\n") = "[Page 1, Relevance: 50.0%]\n"
      by decide]
  have hc : c10doc.content.length = 9972 := by
    show (String.mk (List.replicate 9972 'a')).length = 9972
    rw [String.length_mk, List.length_replicate]
  rw [h, String.length_append, String.length_append, hc]
  decide

/-- If every candidate's block alone exceeds the budget, every page breaks on
its first candidate and the accumulated context stays empty. -/
theorem pagesLoop_oversized (documents : List MatchedDocument)
    (h : ∀ d ∈ documents, MAX_CONTEXT_LENGTH <
      (sectionString d.metadata.page_number d).length) :
    ∀ pages : List Int, pagesLoop documents pages "" 0 = ("", 0) := by
  intro pages
  induction pages with
  | nil => rfl
  | cons p ps ih =>
    have hp : pageLoop p (pageDocs documents p) "" 0 = ("", 0) := by
      cases hpd : pageDocs documents p with
      | nil => rfl
      | cons d rest =>
        have hd : d ∈ pageDocs documents p := by
          rw [hpd]; exact List.mem_cons_self _ _
        have hmem := List.mem_of_mem_filter hd
        have hpage : d.metadata.page_number = p :=
          beq_iff_eq.mp (List.mem_filter.mp hd).2
        rw [pageLoop_cons]
        rw [if_pos (by rw [Nat.zero_add, ← hpage]; exact h d hmem)]
    show pagesLoop documents ps (pageLoop p (pageDocs documents p) "" 0).1
      (pageLoop p (pageDocs documents p) "" 0).2 = ("", 0)
    rw [hp]
    exact ih

theorem dropWhile_ws_append_single (c : Char) (h : isWsChar c = false) :
    ∀ u : List Char, List.dropWhile isWsChar (u ++ [c]) =
      List.dropWhile isWsChar u ++ [c] := by
  intro u
  induction u with
  | nil => simp [List.dropWhile_cons, h]
  | cons x xs ih =>
    cases hx : isWsChar x with
    | true => simp [List.dropWhile_cons, hx, ih]
    | false => simp [List.dropWhile_cons, hx]

/-- Trimming preserves a non-whitespace head character. -/
theorem trimStr_head (c : Char) (hc : isWsChar c = false) (l : List Char) :
    ∃ t, (trimStr (String.mk (c :: l))).data = c :: t := by
  unfold trimStr
  rw [show (String.mk (c :: l)).data = c :: l from rfl]
  rw [dropWhile_ws_cons _ _ hc, List.reverse_cons, dropWhile_ws_append_single c hc,
    List.reverse_append]
  exact ⟨(List.dropWhile isWsChar l.reverse).reverse, by simp⟩

theorem append_head_bracket (s t : String) (h : ∃ u, s.data = '[' :: u) :
    ∃ u, (s ++ t).data = '[' :: u := by
  obtain ⟨u, hu⟩ := h
  exact ⟨u ++ t.data, by rw [String.data_append, hu]; rfl⟩

theorem sectionString_head (page : Int) (doc : MatchedDocument) :
    ∃ u, (sectionString page doc).data = '[' :: u := by
  unfold sectionString
  apply append_head_bracket
  apply append_head_bracket
  apply append_head_bracket
  apply append_head_bracket
  apply append_head_bracket
  apply append_head_bracket
  exact ⟨("Page " : String).data, by decide⟩

theorem pageLoop_head (page : Int) :
    ∀ (docs : List MatchedDocument) (context : String) (total : Nat),
      (context = "" ∨ ∃ t, context.data = '[' :: t) →
      ((pageLoop page docs context total).1 = "" ∨
        ∃ t, (pageLoop page docs context total).1.data = '[' :: t) := by
  intro docs
  induction docs with
  | nil => intro context total h; exact h
  | cons d rest ih =>
    intro context total h
    rw [pageLoop_cons]
    by_cases hcond : MAX_CONTEXT_LENGTH < total + (sectionString page d).length
    · rw [if_pos hcond]; exact h
    · rw [if_neg hcond]
      apply ih
      right
      rcases h with h | ⟨t, ht⟩
      · subst h
        rw [String.empty_append]
        exact sectionString_head page d
      · exact ⟨t ++ (sectionString page d).data, by
          rw [String.data_append, ht]; rfl⟩

theorem pagesLoop_head (documents : List MatchedDocument) :
    ∀ (pages : List Int) (context : String) (total : Nat),
      (context = "" ∨ ∃ t, context.data = '[' :: t) →
      ((pagesLoop documents pages context total).1 = "" ∨
        ∃ t, (pagesLoop documents pages context total).1.data = '[' :: t) := by
  intro pages
  induction pages with
  | nil => intro context total h; exact h
  | cons p ps ih =>
    intro context total h
    show ((pagesLoop documents ps (pageLoop p (pageDocs documents p) context total).1
      (pageLoop p (pageDocs documents p) context total).2).1 = "" ∨ _)
    exact ih _ _ (pageLoop_head p _ context total h)

/-- C10: there is a non-empty candidate list for which `formatContext` returns
the empty string rather than the "no relevant context" sentinel — whenever every
candidate's rendered block on its own exceeds the total character budget — and
the sentinel is returned only for the empty input list. -/
theorem c10_empty_output_not_sentinel :
    (([c10doc] : List MatchedDocument) ≠ [] ∧ formatContext [c10doc] = "") ∧
    (∀ documents : List MatchedDocument,
      (∀ d ∈ documents, MAX_CONTEXT_LENGTH <
        (sectionString d.metadata.page_number d).length) →
      documents ≠ [] → formatContext documents = "") ∧
    (∀ documents : List MatchedDocument,
      formatContext documents = noContextSentinel → documents = []) := by
  have hgen : ∀ documents : List MatchedDocument,
      (∀ d ∈ documents, MAX_CONTEXT_LENGTH <
        (sectionString d.metadata.page_number d).length) →
      documents ≠ [] → formatContext documents = "" := by
    intro documents h hne
    have hE : documents.isEmpty = false := List.isEmpty_eq_false.mpr hne
    unfold formatContext
    rw [hE]
    simp only [Bool.false_eq_true, if_false]
    rw [pagesLoop_oversized documents h]
    decide
  refine ⟨⟨by simp, ?_⟩, hgen, ?_⟩
  · apply hgen
    · intro d hd
      have : d = c10doc := List.mem_singleton.mp hd
      rw [this]
      rw [c10_sec_length]
      decide
    · simp
  · intro documents heq
    by_cases hne : documents = []
    · exact hne
    exfalso
    have hE : documents.isEmpty = false := List.isEmpty_eq_false.mpr hne
    unfold formatContext at heq
    rw [hE] at heq
    simp only [Bool.false_eq_true, if_false] at heq
    have hinv := pagesLoop_head documents (pagesOf documents) "" 0 (Or.inl rfl)
    rcases hinv with hempty | ⟨t, ht⟩
    · rw [hempty] at heq
      exact absurd heq (by decide)
    · set s := (pagesLoop documents (pagesOf documents) "" 0).1 with hs
      have hsmk : s = String.mk ('[' :: t) := stringExt ht
      rw [hsmk] at heq
      obtain ⟨u, hu⟩ := trimStr_head '[' (by decide) t
      rw [heq] at hu
      have : ('[' : Char) = 'N' := by
        have := congrArg (fun l => l.head?) hu.symm
        simpa [noContextSentinel] using this
      exact absurd this (by decide)

/-- Witness for C10: the sentinel-only-for-empty direction applied at the
concrete empty input. -/
theorem c10_empty_output_not_sentinel_witness :
    formatContext ([] : List MatchedDocument) = noContextSentinel ∧
    ([] : List MatchedDocument) = [] :=
  ⟨rfl, c10_empty_output_not_sentinel.2.2 [] rfl⟩

/-! ### C8: streaming orchestrator (`streamRAGResponse`) and chat route -/

/-- Pages recorded for one document name: the `Set<number>` accumulated in
insertion order (first occurrence kept) over the docs bearing that name. -/
def pagesForName (documents : List MatchedDocument) (name : String) : List Int :=
  dedupFirst ((documents.filter
    (fun d => d.metadata.document_name == name)).map
    (fun d => d.metadata.page_number))

/-- One line of `formatSources`: `Array.from(pages).sort((a, b) => a - b)`
joined with ", " inside the template string. -/
def sourceLine (documents : List MatchedDocument) (name : String) : String :=
  name ++ " (pages: " ++
    String.intercalate ", "
      ((List.insertionSort (fun a b : Int => a ≤ b)
        (pagesForName documents name)).map toString) ++ ")"

/-- `formatSources`: one entry per distinct document name, in first-occurrence
order (JS `Map` iteration order). -/
def formatSources (documents : List MatchedDocument) : List String :=
  (dedupFirst (documents.map (fun d => d.metadata.document_name))).map
    (sourceLine documents)

/-- Events yielded by `streamRAGResponse`. -/
inductive StreamEvent where
  | chunk (data : String)
  | sources (data : List String)
  deriving DecidableEq

/-- `streamRAGResponse`, abstracted over the chunk contents produced by the
chat model's stream: each truthy (non-empty) chunk content is yielded as a
`chunk` event, then a single `sources` event is yielded at the end. -/
def streamRAGResponse (modelChunks : List String)
    (documents : List MatchedDocument) : List StreamEvent :=
  (modelChunks.filter (fun c => c != "")).map .chunk ++
    [.sources (formatSources documents)]

def isSourcesEvent : StreamEvent → Bool
  | .sources _ => true
  | .chunk _ => false

def isNonemptyChunkEvent : StreamEvent → Bool
  | .chunk d => d != ""
  | .sources _ => false

/-- SSE records written by the chat route's `ReadableStream`. -/
inductive SSERecord where
  | chunkRec (content : String)
  | sourcesRec (sources : List String)
  | doneRec (chunks : Nat)
  deriving DecidableEq

/-- Per-event encoding in the route's `for await` loop: a `chunk` event with
truthy data becomes a `chunk` record, a `sources` event becomes a `sources`
record, and an empty-content `chunk` event matches neither branch. -/
def recordOf : StreamEvent → Option SSERecord
  | .chunk d => if d == "" then none else some (.chunkRec d)
  | .sources s => some (.sourcesRec s)

/-- The chat route (`POST`): encodes each generator event, then appends a
terminal `done` record carrying `chunkCount`, the number of truthy chunk
events seen. -/
def chatRouteRecords (events : List StreamEvent) : List SSERecord :=
  events.filterMap recordOf ++
    [.doneRec (events.countP (fun e => isNonemptyChunkEvent e))]

theorem countP_map_chunk (l : List String) :
    (l.map StreamEvent.chunk).countP (fun e => isSourcesEvent e) = 0 := by
  rw [List.countP_map]
  simp [Function.comp, isSourcesEvent]

/-- C8: every content-chunk event precedes the single terminal sources event;
with zero content chunks the stream is exactly one sources event; and the
route's terminal `done` record carries a chunk count that is zero exactly when
the generation yielded no (non-empty) content — the signal the caller uses to
surface a "no answer produced" condition. -/
theorem c8_stream_order_and_empty_generation
    (modelChunks : List String) (documents : List MatchedDocument) :
    ((streamRAGResponse modelChunks documents).countP
        (fun e => isSourcesEvent e) = 1) ∧
    (∃ body, streamRAGResponse modelChunks documents =
        body ++ [.sources (formatSources documents)] ∧
      ∀ e ∈ body, isSourcesEvent e = false) ∧
    (modelChunks.filter (fun c => c != "") = [] →
      streamRAGResponse modelChunks documents =
        [.sources (formatSources documents)]) ∧
    (∃ n, (chatRouteRecords (streamRAGResponse modelChunks documents)).getLast?
        = some (.doneRec n) ∧
      (n = 0 ↔ modelChunks.filter (fun c => c != "") = [])) := by
  refine ⟨?_, ?_, ?_, ?_⟩
  · unfold streamRAGResponse
    rw [List.countP_append, countP_map_chunk]
    rfl
  · refine ⟨(modelChunks.filter (fun c => c != "")).map .chunk, rfl, ?_⟩
    intro e he
    obtain ⟨c, _, hc⟩ := List.mem_map.mp he
    rw [← hc]
    rfl
  · intro h
    unfold streamRAGResponse
    rw [h]
    rfl
  · refine ⟨(modelChunks.filter (fun c => c != "")).length, ?_, ?_⟩
    · unfold chatRouteRecords
      rw [List.getLast?_concat]
      have hcnt : (streamRAGResponse modelChunks documents).countP
          (fun e => isNonemptyChunkEvent e) =
          (modelChunks.filter (fun c => c != "")).length := by
        unfold streamRAGResponse
        rw [List.countP_append, List.countP_map]
        have h1 : (modelChunks.filter (fun c => c != "")).countP
            ((fun e => isNonemptyChunkEvent e) ∘ StreamEvent.chunk) =
            (modelChunks.filter (fun c => c != "")).length := by
          rw [List.countP_eq_length]
          intro c hc
          have := List.of_mem_filter hc
          simpa [Function.comp, isNonemptyChunkEvent] using this
        rw [h1]
        simp [isNonemptyChunkEvent]
      rw [hcnt]
    · rw [List.length_eq_zero]

/-- Witness for C8: the zero-content-chunk conjunct applied at a concrete
stream that yields only an empty chunk, with an empty document list. -/
theorem c8_stream_order_witness :
    ([""].filter (fun c => c != "") = ([] : List String)) ∧
    streamRAGResponse [""] [] = [.sources (formatSources [])] :=
  ⟨by decide, (c8_stream_order_and_empty_generation [""] []).2.2.1 (by decide)⟩

end RAGPipeline
